import Mathlib

/-!
Verification of the real-time sample ingestion and framing pipeline of the
GPIO-Documents repository (`HZanalise.py`, `analisesensordepeso.py`).

The embedding models:
* the byte-stream framer of `HZanalise.main` (accumulator `buffer`, the
  `while len(buffer) >= SAMPLE_SIZE` drain loop, `struct.unpack('<i', ...)`
  with its try/except);
* the rate estimator (`deque(maxlen=1000)` of timestamps and the printed
  rate expression);
* the rolling display buffer of `RealTimePlot` (two `deque(maxlen=2000)`);
* the settle-discard tick machine of `RealTimePlot.update_plot`;
* the CSV sink (`init_csv_file`, `save_to_csv`, `check_file_rotation`),
  with OS-level buffering made explicit and I/O failures injected as
  boolean parameters;
* the shutdown path `RealTimePlot.closeEvent`.

Bytes are modelled as natural numbers, timestamps as rationals, and the
Python exceptions of the sink as explicit failure flags.
-/

/-- `SAMPLE_SIZE` of `HZanalise.py`: each sample is 4 bytes. -/
def SAMPLE_SIZE : ℕ := 4

/-- Two's-complement reinterpretation of an unsigned 32-bit value, as
`struct.unpack('<i', s)` performs after assembling the little-endian word. -/
def toSigned32 (v : ℕ) : ℤ :=
  if v < 2 ^ 31 then (v : ℤ) else (v : ℤ) - 2 ^ 32

/-- Little-endian word value of four bytes. -/
def leWord (b0 b1 b2 b3 : ℕ) : ℕ :=
  b0 + 256 * b1 + 65536 * b2 + 16777216 * b3

/-- Model of Python `struct.unpack('<i', s)[0]`: it raises `struct.error`
(here `none`) exactly when `s` does not have length 4, and otherwise decodes
the four bytes as a little-endian two's-complement signed 32-bit integer. -/
def unpackInt32 (s : List ℕ) : Option ℤ :=
  match s with
  | [b0, b1, b2, b3] => some (toSigned32 (leWord b0 b1 b2 b3))
  | _ => none

/-- The drain loop of `HZanalise.main` (lines 46–56): while the buffer holds
at least `SAMPLE_SIZE` bytes, remove the first four, decode them, and on a
decode failure `continue` — the buffer has already advanced, so the sample is
skipped.  Generic in the decoder `dec` so the try/except structure can be
analysed for an arbitrary fallible decoder. -/
def drainWith (dec : List ℕ → Option ℤ) : List ℕ → List ℤ × List ℕ
  | b0 :: b1 :: b2 :: b3 :: rest =>
    let r := drainWith dec rest
    match dec [b0, b1, b2, b3] with
    | some v => (v :: r.1, r.2)
    | none => r
  | buf => ([], buf)

/-- One ingestion step of the framer: `buffer.extend(data)` followed by the
drain loop.  Returns the decoded samples of this call and the new
accumulator. -/
def ingest (dec : List ℕ → Option ℤ) (acc chunk : List ℕ) : List ℤ × List ℕ :=
  drainWith dec (acc ++ chunk)

/-- A sequence of ingestion steps: the samples of every call in order, and
the final accumulator. -/
def ingestAll (dec : List ℕ → Option ℤ) (acc : List ℕ) :
    List (List ℕ) → List ℤ × List ℕ
  | [] => ([], acc)
  | c :: cs =>
    let r := ingest dec acc c
    let rs := ingestAll dec r.2 cs
    (r.1 ++ rs.1, rs.2)

/-- The consecutive aligned 4-byte windows of a byte list. -/
def alignedWindows : List ℕ → List (List ℕ)
  | b0 :: b1 :: b2 :: b3 :: rest => [b0, b1, b2, b3] :: alignedWindows rest
  | _ => []

/-- The bytes left over after removing every aligned 4-byte window. -/
def alignedRest : List ℕ → List ℕ
  | _ :: _ :: _ :: _ :: rest => alignedRest rest
  | buf => buf

theorem list_length_four {α : Type} (w : List α) (h : w.length = 4) :
    ∃ a b c d, w = [a, b, c, d] := by
  rcases w with _ | ⟨a, w⟩
  · simp at h
  rcases w with _ | ⟨b, w⟩
  · simp at h
  rcases w with _ | ⟨c, w⟩
  · simp at h
  rcases w with _ | ⟨d, w⟩
  · simp at h
  rcases w with _ | ⟨e, w⟩
  · exact ⟨a, b, c, d, rfl⟩
  · simp at h

theorem drainWith_eq (dec : List ℕ → Option ℤ) (l : List ℕ) :
    drainWith dec l = ((alignedWindows l).filterMap dec, alignedRest l) := by
  induction l using alignedRest.induct with
  | case1 b0 b1 b2 b3 rest ih =>
    simp only [drainWith, alignedWindows, alignedRest, List.filterMap, ih]
    cases dec [b0, b1, b2, b3] <;> simp
  | case2 buf h =>
    rcases buf with _ | ⟨a, _ | ⟨b, _ | ⟨c, _ | ⟨d, rest⟩⟩⟩⟩
    · rfl
    · rfl
    · rfl
    · rfl
    · exact absurd rfl (h a b c d rest)

theorem alignedRest_length_le (l : List ℕ) : (alignedRest l).length ≤ 3 := by
  induction l using alignedRest.induct with
  | case1 b0 b1 b2 b3 rest ih => simpa [alignedRest] using ih
  | case2 buf h =>
    rcases buf with _ | ⟨a, _ | ⟨b, _ | ⟨c, _ | ⟨d, rest⟩⟩⟩⟩
    · simp [alignedRest]
    · simp [alignedRest]
    · simp [alignedRest]
    · simp [alignedRest]
    · exact absurd rfl (h a b c d rest)

theorem drainWith_short (dec : List ℕ → Option ℤ) (l : List ℕ)
    (h : l.length ≤ 3) : drainWith dec l = ([], l) := by
  rcases l with _ | ⟨a, _ | ⟨b, _ | ⟨c, _ | ⟨d, rest⟩⟩⟩⟩
  · rfl
  · rfl
  · rfl
  · rfl
  · simp at h

/-- Draining a concatenation first drains the left part, then the leftover
together with the right part. -/
theorem drainWith_append (dec : List ℕ → Option ℤ) (l₁ l₂ : List ℕ) :
    drainWith dec (l₁ ++ l₂) =
      ((drainWith dec l₁).1 ++ (drainWith dec ((drainWith dec l₁).2 ++ l₂)).1,
        (drainWith dec ((drainWith dec l₁).2 ++ l₂)).2) := by
  induction l₁ using alignedRest.induct with
  | case1 b0 b1 b2 b3 rest ih =>
    show drainWith dec (b0 :: b1 :: b2 :: b3 :: (rest ++ l₂)) = _
    rw [drainWith, ih]
    conv_rhs => rw [drainWith]
    cases dec [b0, b1, b2, b3] <;> simp
  | case2 buf h =>
    rcases buf with _ | ⟨a, _ | ⟨b, _ | ⟨c, _ | ⟨d, rest⟩⟩⟩⟩
    · rfl
    · rw [drainWith_short dec [a] (by simp)]; rfl
    · rw [drainWith_short dec [a, b] (by simp)]; rfl
    · rw [drainWith_short dec [a, b, c] (by simp)]; rfl
    · exact absurd rfl (h a b c d rest)

/-- Feeding the chunks one at a time equals feeding their concatenation in a
single call, provided the starting accumulator is short (as the drain loop
always leaves it). -/
theorem ingestAll_eq_single (dec : List ℕ → Option ℤ) (cs : List (List ℕ)) :
    ∀ acc : List ℕ, acc.length ≤ 3 →
      ingestAll dec acc cs = drainWith dec (acc ++ cs.flatten) := by
  induction cs with
  | nil =>
    intro acc hacc
    simp only [ingestAll, List.flatten_nil, List.append_nil]
    exact (drainWith_short dec acc hacc).symm
  | cons c cs ih =>
    intro acc hacc
    have hleft : ((drainWith dec (acc ++ c)).2).length ≤ 3 := by
      rw [drainWith_eq]; exact alignedRest_length_le _
    simp only [ingestAll, ingest, List.flatten_cons]
    rw [ih _ hleft, ← List.append_assoc, drainWith_append dec (acc ++ c) cs.flatten]

theorem alignedWindows_mem_length (l : List ℕ) :
    ∀ w ∈ alignedWindows l, w.length = 4 := by
  induction l using alignedRest.induct with
  | case1 b0 b1 b2 b3 rest ih =>
    intro w hw
    rw [alignedWindows] at hw
    rcases List.mem_cons.mp hw with hw | hw
    · subst hw; rfl
    · exact ih w hw
  | case2 buf h =>
    rcases buf with _ | ⟨a, _ | ⟨b, _ | ⟨c, _ | ⟨d, rest⟩⟩⟩⟩
    · intro w hw; simp [alignedWindows] at hw
    · intro w hw; simp [alignedWindows] at hw
    · intro w hw; simp [alignedWindows] at hw
    · intro w hw; simp [alignedWindows] at hw
    · exact absurd rfl (h a b c d rest)

theorem alignedWindows_length (l : List ℕ) :
    (alignedWindows l).length = l.length / 4 := by
  induction l using alignedRest.induct with
  | case1 b0 b1 b2 b3 rest ih =>
    show (alignedWindows (b0 :: b1 :: b2 :: b3 :: rest)).length = _
    rw [alignedWindows]
    simp only [List.length_cons, ih]
    omega
  | case2 buf h =>
    rcases buf with _ | ⟨a, _ | ⟨b, _ | ⟨c, _ | ⟨d, rest⟩⟩⟩⟩
    · simp [alignedWindows]
    · simp [alignedWindows]
    · simp [alignedWindows]
    · simp [alignedWindows]
    · exact absurd rfl (h a b c d rest)

theorem unpackInt32_isSome (w : List ℕ) (hw : w.length = 4) :
    (unpackInt32 w).isSome := by
  obtain ⟨a, b, c, d, rfl⟩ := list_length_four w hw
  rfl

theorem filterMap_length_of_isSome {α β : Type} (f : α → Option β)
    (l : List α) (h : ∀ x ∈ l, (f x).isSome) :
    (l.filterMap f).length = l.length := by
  induction l with
  | nil => rfl
  | cons a l ih =>
    have ha := h a (by simp)
    rcases hfa : f a with _ | v
    · rw [hfa] at ha; simp at ha
    · simp only [List.filterMap_cons, hfa, List.length_cons]
      rw [ih fun x hx => h x (by simp [hx])]

/-- C1: for a byte stream of `4 * n` bytes, any partition of the stream into
chunks fed to `ingest` one call at a time yields exactly the same samples in
the same order as ingesting the whole stream in one call, and those samples
number exactly `n`. -/
theorem framing_chunk_invariance (cs : List (List ℕ)) (n : ℕ)
    (h : cs.flatten.length = 4 * n) :
    (ingestAll unpackInt32 [] cs).1 = (ingest unpackInt32 [] cs.flatten).1 ∧
      (ingestAll unpackInt32 [] cs).1.length = n := by
  have he : ingestAll unpackInt32 [] cs = drainWith unpackInt32 cs.flatten := by
    simpa using ingestAll_eq_single unpackInt32 cs [] (by simp)
  constructor
  · rw [he]; simp [ingest]
  · rw [he, drainWith_eq]
    show ((alignedWindows cs.flatten).filterMap unpackInt32).length = n
    rw [filterMap_length_of_isSome unpackInt32 _
        (fun w hw => unpackInt32_isSome w (alignedWindows_mem_length _ w hw)),
      alignedWindows_length, h]
    omega

/-- Witness for C1: the 8-byte stream encoding `[1, 2]`, split into chunks of
sizes 1, 2 and 5. -/
theorem framing_chunk_invariance_witness :
    ([[1], [0, 0], [0, 2, 0, 0, 0]] : List (List ℕ)).flatten.length = 4 * 2 ∧
      ((ingestAll unpackInt32 [] [[1], [0, 0], [0, 2, 0, 0, 0]]).1 =
          (ingest unpackInt32 []
            ([[1], [0, 0], [0, 2, 0, 0, 0]] : List (List ℕ)).flatten).1 ∧
        (ingestAll unpackInt32 [] [[1], [0, 0], [0, 2, 0, 0, 0]]).1.length = 2) :=
  ⟨by decide, framing_chunk_invariance [[1], [0, 0], [0, 2, 0, 0, 0]] 2 (by decide)⟩

/-- C2: after any sequence of `ingest` calls starting from the empty
accumulator, the leftover byte count is at most 3, i.e. strictly less than
`SAMPLE_SIZE`. -/
theorem accumulator_bounded (cs : List (List ℕ)) :
    ((ingestAll unpackInt32 [] cs).2).length < SAMPLE_SIZE := by
  have he : ingestAll unpackInt32 [] cs = drainWith unpackInt32 cs.flatten := by
    simpa using ingestAll_eq_single unpackInt32 cs [] (by simp)
  rw [he, drainWith_eq]
  have := alignedRest_length_le cs.flatten
  simpa [SAMPLE_SIZE] using Nat.lt_succ_of_le this

/-- C10: in the framing loop every slice handed to the decoder has length
exactly `SAMPLE_SIZE`, `struct.unpack('<i', ·)` succeeds on every such slice,
and consequently no sample of the stream is ever dropped: the decode-error
branch is unreachable. -/
theorem decode_branch_unreachable (l : List ℕ) :
    ((drainWith unpackInt32 l).1).length = (alignedWindows l).length ∧
      (alignedWindows l).all
        (fun w => w.length == SAMPLE_SIZE && (unpackInt32 w).isSome) = true := by
  constructor
  · rw [drainWith_eq]
    exact filterMap_length_of_isSome unpackInt32 _
      (fun w hw => unpackInt32_isSome w (alignedWindows_mem_length _ w hw))
  · rw [List.all_eq_true]
    intro w hw
    have h4 := alignedWindows_mem_length _ w hw
    simp [h4, SAMPLE_SIZE, unpackInt32_isSome w h4]

/-- Draining a stream whose aligned windows all decode yields exactly the
decoded value of every window, followed by whatever draining the suffix
yields. -/
theorem drainWith_flatten_front (dec : List ℕ → Option ℤ) (v : List ℕ → ℤ)
    (ws : List (List ℕ)) (h : ∀ w ∈ ws, w.length = 4 ∧ dec w = some (v w))
    (l : List ℕ) :
    drainWith dec (ws.flatten ++ l) =
      (ws.map v ++ (drainWith dec l).1, (drainWith dec l).2) := by
  induction ws with
  | nil => simp
  | cons w ws ih =>
    obtain ⟨hw4, hwv⟩ := h w (List.mem_cons_self w ws)
    have ihh := ih fun x hx => h x (List.mem_cons_of_mem w hx)
    obtain ⟨a, b, c, d, rfl⟩ := list_length_four w hw4
    show drainWith dec (a :: b :: c :: d :: (ws.flatten ++ l)) = _
    rw [drainWith, ihh, hwv]
    simp

/-- C6: a single corrupted 4-byte window surrounded by well-formed windows
drops exactly that one sample: the offset still advances by `SAMPLE_SIZE`
over the bad window, every surrounding window is decoded intact and in
order, and the leftover is empty — a decode failure never desynchronizes
subsequent framing. -/
theorem decode_failure_isolation (dec : List ℕ → Option ℤ) (v : List ℕ → ℤ)
    (ws1 ws2 : List (List ℕ)) (bad : List ℕ)
    (h1 : ∀ w ∈ ws1, w.length = 4 ∧ dec w = some (v w))
    (h2 : ∀ w ∈ ws2, w.length = 4 ∧ dec w = some (v w))
    (hb : bad.length = 4) (hdec : dec bad = none) :
    drainWith dec (ws1.flatten ++ (bad ++ ws2.flatten)) =
      (ws1.map v ++ ws2.map v, []) := by
  rw [drainWith_flatten_front dec v ws1 h1]
  obtain ⟨a, b, c, d, rfl⟩ := list_length_four bad hb
  have htail : drainWith dec (a :: b :: c :: d :: ws2.flatten) =
      (ws2.map v, []) := by
    rw [drainWith, hdec]
    have := drainWith_flatten_front dec v ws2 h2 []
    rw [drainWith_short dec [] (by simp)] at this
    simpa using this
  simp [htail]

/-- Witness for C6: the stream `[1,0,0,0] ++ [9,9,9,9] ++ [2,0,0,0]` with a
decoder that fails exactly on `[9,9,9,9]` yields `[1, 2]` and an empty
leftover. -/
theorem decode_failure_isolation_witness :
    (∀ w ∈ ([[1, 0, 0, 0]] : List (List ℕ)), w.length = 4 ∧
        (if w = [9, 9, 9, 9] then none else unpackInt32 w) =
          some ((unpackInt32 w).getD 0)) ∧
      (∀ w ∈ ([[2, 0, 0, 0]] : List (List ℕ)), w.length = 4 ∧
        (if w = [9, 9, 9, 9] then none else unpackInt32 w) =
          some ((unpackInt32 w).getD 0)) ∧
      ([9, 9, 9, 9] : List ℕ).length = 4 ∧
      (if ([9, 9, 9, 9] : List ℕ) = [9, 9, 9, 9] then none
        else unpackInt32 [9, 9, 9, 9]) = none ∧
      drainWith (fun w => if w = [9, 9, 9, 9] then none else unpackInt32 w)
          (([[1, 0, 0, 0]] : List (List ℕ)).flatten ++
            ([9, 9, 9, 9] ++ ([[2, 0, 0, 0]] : List (List ℕ)).flatten)) =
        (([[1, 0, 0, 0]] : List (List ℕ)).map
            (fun w => (unpackInt32 w).getD 0) ++
          ([[2, 0, 0, 0]] : List (List ℕ)).map
            (fun w => (unpackInt32 w).getD 0),
          []) :=
  ⟨by decide, by decide, by decide, by decide,
    decode_failure_isolation
      (fun w => if w = [9, 9, 9, 9] then none else unpackInt32 w)
      (fun w => (unpackInt32 w).getD 0)
      [[1, 0, 0, 0]] [[2, 0, 0, 0]] [9, 9, 9, 9]
      (by decide) (by decide) (by decide) (by decide)⟩

/-- Python `deque` with a `maxlen` bound, as used for `time_window`,
`self.data` and `self.time_values`: `append` adds on the right and evicts
the oldest (leftmost) entry when the bound would be exceeded. -/
def dequeAppend {α : Type} (m : ℕ) (q : List α) (x : α) : List α :=
  let q' := q ++ [x]
  if m < q'.length then q'.drop (q'.length - m) else q'

theorem dequeAppend_of_le {α : Type} (m : ℕ) (q : List α) (x : α)
    (h : q.length ≤ m) :
    dequeAppend m q x = (q ++ [x]).drop (q.length + 1 - m) := by
  unfold dequeAppend
  by_cases hm : m < (q ++ [x]).length
  · rw [if_pos hm]
    simp
  · rw [if_neg hm]
    simp only [List.length_append, List.length_cons, List.length_nil] at hm
    have : q.length + 1 - m = 0 := by omega
    rw [this, List.drop_zero]

theorem dequeAppend_length_le {α : Type} (m : ℕ) (q : List α) (x : α)
    (h : q.length ≤ m) : (dequeAppend m q x).length ≤ m := by
  rw [dequeAppend_of_le m q x h]
  simp
  omega

/-- Folding `dequeAppend` from the empty deque keeps exactly the last `m`
pushed elements. -/
theorem dequeFold_eq {α : Type} (m : ℕ) (xs : List α) :
    xs.foldl (dequeAppend m) [] = xs.drop (xs.length - m) := by
  induction xs using List.reverseRecOn with
  | nil => simp
  | append_singleton xs x ih =>
    rw [List.foldl_append, List.foldl_cons, List.foldl_nil, ih]
    have hlen : (xs.drop (xs.length - m)).length ≤ m := by
      simp; omega
    rw [dequeAppend_of_le _ _ _ hlen]
    rw [← List.drop_append_of_le_length
        (show xs.length - m ≤ xs.length by omega), List.drop_drop]
    congr 1
    simp
    omega

/-- `window_size` of `HZanalise.main`: the timestamp window holds at most
1000 entries. -/
def window_size : ℕ := 1000

/-- `time_window.append(current_time)` with
`time_window = deque(maxlen=window_size)`. -/
def recordTimestamp (w : List ℚ) (t : ℚ) : List ℚ :=
  dequeAppend window_size w t

/-- Recording a sequence of arrival timestamps in order. -/
def recordAll (w : List ℚ) (ts : List ℚ) : List ℚ :=
  ts.foldl recordTimestamp w

/-- The rate `HZanalise.main` prints (lines 63–68):
`(len(time_window) - 1) / elapsed if elapsed > 0 else 0` with
`elapsed = time_window[-1] - time_window[0]`, computed under the guard
`len(time_window) > 1`.  With at most one timestamp the source prints no
rate at all; the model returns 0 there, the same `else 0` convention the
source applies to a non-positive elapsed time. -/
def current_rate (w : List ℚ) : ℚ :=
  if 1 < w.length then
    let elapsed := w.getLast?.getD 0 - w.head?.getD 0
    if 0 < elapsed then ((w.length : ℚ) - 1) / elapsed else 0
  else 0

/-- 1000 timestamps spaced exactly 100 ms apart. -/
def tenHzStamps : List ℚ :=
  (List.range 1000).map (fun i : ℕ => (i : ℚ) / 10)

theorem recordAll_nil_eq (ts : List ℚ) :
    recordAll [] ts = ts.drop (ts.length - window_size) :=
  dequeFold_eq window_size ts

theorem current_rate_formula (w : List ℚ) (h2 : 1 < w.length)
    (hpos : 0 < w.getLast?.getD 0 - w.head?.getD 0) :
    current_rate w =
      ((w.length : ℚ) - 1) / (w.getLast?.getD 0 - w.head?.getD 0) := by
  rw [current_rate, if_pos h2]
  exact if_pos hpos

/-- C3: the timestamp window is FIFO — after recording any sequence of
timestamps it holds exactly the last `window_size` of them, oldest evicted
first — and on 1000 timestamps spaced exactly 100 ms apart `current_rate`
is exactly 10 Hz; with fewer than two timestamps, or a non-positive elapsed
time, the rate is 0. -/
theorem rate_estimator_window (ts : List ℚ) :
    recordAll [] ts = ts.drop (ts.length - window_size) ∧
      (recordAll [] ts).length ≤ window_size ∧
      current_rate (recordAll [] tenHzStamps) = 10 ∧
      current_rate [] = 0 ∧ current_rate [5] = 0 ∧ current_rate [3, 3] = 0 := by
  refine ⟨recordAll_nil_eq ts, ?_, ?_, by rfl, by rfl,
    by rw [current_rate]; norm_num [List.getLast?]⟩
  · rw [recordAll_nil_eq ts]
    simp
    omega
  · have hlen : tenHzStamps.length = 1000 := by
      rw [tenHzStamps, List.length_map, List.length_range]
    have hall : recordAll [] tenHzStamps = tenHzStamps := by
      rw [recordAll_nil_eq, hlen]
      simp [window_size]
    have hhead : tenHzStamps.head?.getD 0 = 0 := by
      rw [List.head?_eq_getElem?, tenHzStamps]
      simp [List.getElem?_map, List.getElem?_range]
    have hlast : tenHzStamps.getLast?.getD 0 = 999 / 10 := by
      rw [List.getLast?_eq_getElem?, hlen, tenHzStamps]
      simp [List.getElem?_map, List.getElem?_range]
    rw [hall, current_rate_formula _ (by rw [hlen]; norm_num)
        (by rw [hhead, hlast]; norm_num), hhead, hlast, hlen]
    norm_num

/-- `buffer_size` of `RealTimePlot.__init__`: capacity of the two display
deques (`self.data`, `self.time_values`). -/
def buffer_size : ℕ := 2000

/-- One push into the display buffer (`RealTimePlot.update_plot`, lines
253–255): `self.data.append(sample)` then
`self.time_values.append(len(self.data))` — the recorded index is the length
of the value deque after the append. -/
def rollPush (cap : ℕ) (s : List ℤ × List ℕ) (v : ℤ) : List ℤ × List ℕ :=
  let data := dequeAppend cap s.1 v
  (data, dequeAppend cap s.2 data.length)

/-- Pushing a whole sequence of samples in order. -/
def rollPushAll (cap : ℕ) (s : List ℤ × List ℕ) (vs : List ℤ) :
    List ℤ × List ℕ :=
  vs.foldl (rollPush cap) s

/-- The index values the source actually records: push number `i + 1` capped
at the deque capacity. -/
def pushIdxs (cap n : ℕ) : List ℕ :=
  (List.range n).map fun i => min (i + 1) cap

theorem pushIdxs_length (cap n : ℕ) : (pushIdxs cap n).length = n := by
  rw [pushIdxs, List.length_map, List.length_range]

theorem pushIdxs_succ (cap n : ℕ) :
    pushIdxs cap (n + 1) = pushIdxs cap n ++ [min (n + 1) cap] := by
  rw [pushIdxs, pushIdxs, List.range_succ, List.map_append, List.map_singleton]

/-- Full characterization of the display buffer after pushing `vs` from
empty: the values are the last `cap` pushed samples, and the index deque
holds `min (push number, cap)` for each retained push. -/
theorem rollPushAll_spec (cap : ℕ) (vs : List ℤ) :
    rollPushAll cap ([], []) vs =
      (vs.drop (vs.length - cap),
        (pushIdxs cap vs.length).drop (vs.length - cap)) := by
  induction vs using List.reverseRecOn with
  | nil => simp [rollPushAll, pushIdxs]
  | append_singleton vs v ih =>
    rw [rollPushAll, List.foldl_append, List.foldl_cons, List.foldl_nil]
    rw [show List.foldl (rollPush cap) (([], []) : List ℤ × List ℕ) vs =
        rollPushAll cap ([], []) vs from rfl, ih]
    have hA : (vs.drop (vs.length - cap)).length = vs.length - (vs.length - cap) := by
      simp
    have hI : ((pushIdxs cap vs.length).drop (vs.length - cap)).length =
        vs.length - (vs.length - cap) := by
      simp [pushIdxs_length]
    have hdata : dequeAppend cap (vs.drop (vs.length - cap)) v =
        (vs ++ [v]).drop ((vs ++ [v]).length - cap) := by
      rw [dequeAppend_of_le _ _ _ (by omega : (vs.drop (vs.length - cap)).length ≤ cap)]
      rw [← List.drop_append_of_le_length
          (show vs.length - cap ≤ vs.length by omega), List.drop_drop]
      congr 1
      simp only [hA, List.length_append, List.length_cons, List.length_nil]
      omega
    have hdlen : ((vs ++ [v]).drop ((vs ++ [v]).length - cap)).length =
        min (vs.length + 1) cap := by
      simp
      omega
    rw [rollPush]
    simp only [hdata, hdlen]
    refine Prod.ext rfl ?_
    show dequeAppend cap ((pushIdxs cap vs.length).drop (vs.length - cap))
        (min (vs.length + 1) cap) = _
    rw [dequeAppend_of_le _ _ _
        (by omega : ((pushIdxs cap vs.length).drop (vs.length - cap)).length ≤ cap)]
    rw [← List.drop_append_of_le_length
        (show vs.length - cap ≤ (pushIdxs cap vs.length).length by
          rw [pushIdxs_length]; omega), List.drop_drop]
    rw [← pushIdxs_succ]
    congr 1
    · simp only [hI, List.length_append, List.length_cons, List.length_nil]
      omega
    · simp

/-- C5 counterexample: at the source's capacity 2000, pushing 2001 samples
leaves an index deque whose entries are not the push numbers of the retained
samples — every post-saturation push records index 2000, but the matching
index sequence for the last 2000 of 2001 pushes is `[2, ..., 2001]`. -/
theorem rolling_eviction_counterexample :
    (rollPushAll 2000 ([], []) (List.replicate 2001 (0 : ℤ))).2 ≠
      ((List.range 2001).map fun i => i + 1).drop (2001 - 2000) := by
  rw [rollPushAll_spec, List.length_replicate]
  intro heq
  have h1999 := congrArg (fun l => l[1999]?) heq
  simp only at h1999
  rw [List.getElem?_drop, List.getElem?_drop, pushIdxs, List.getElem?_map,
    List.getElem?_map,
    List.getElem?_range (show 2001 - 2000 + 1999 < 2001 by norm_num)] at h1999
  simp only [Option.map_some'] at h1999
  have h := Option.some.inj h1999
  omega

/-- C5 amended: pushing `vs` samples from empty leaves the last
`min (vs.length, cap)` values in order with lockstep eviction and equal
lengths of the two deques; the index stored with each retained push is
`min (push number, cap)`, which coincides with the push number only until
the buffer saturates. -/
theorem rolling_eviction_amended (cap : ℕ) (vs : List ℤ) :
    (rollPushAll cap ([], []) vs).1 = vs.drop (vs.length - cap) ∧
      (rollPushAll cap ([], []) vs).2 =
        (pushIdxs cap vs.length).drop (vs.length - cap) ∧
      ((rollPushAll cap ([], []) vs).1).length = min vs.length cap ∧
      ((rollPushAll cap ([], []) vs).1).length =
        ((rollPushAll cap ([], []) vs).2).length := by
  have h := rollPushAll_spec cap vs
  refine ⟨?_, ?_, ?_, ?_⟩
  · rw [h]
  · rw [h]
  · rw [h]
    simp
    omega
  · rw [h]
    simp [pushIdxs_length]

/-- The aligned 4-byte windows of one serial read in
`RealTimePlot.update_plot` (`for i in range(0, len(raw_data), 4)` with the
`break` on a short tail): the remainder of the read is discarded.  Generic
in the element type so bytes can carry their arrival-time tag. -/
def readFrames {α : Type} : List α → List (List α)
  | b0 :: b1 :: b2 :: b3 :: rest => [b0, b1, b2, b3] :: readFrames rest
  | _ => []

/-- `initial_delay` of `RealTimePlot.__init__`: the settle window, 3 s. -/
def initial_delay : ℚ := 3

/-- State of the settle/processing machine of `RealTimePlot.update_plot`:
`ignore` is `self.ignore_initial_data`, `pending` the bytes waiting in the
serial input buffer (each tagged with its arrival time), and `frames` the
4-byte windows framed so far (tags kept to trace provenance). -/
structure AcqState where
  ignore : Bool
  pending : List (ℚ × ℕ)
  frames : List (List (ℚ × ℕ))

/-- The body shared by the settled branches of `update_plot`: when at least
4 bytes are waiting, read them all and frame the aligned 4-byte windows of
that read, discarding any short tail. -/
def processPending (s : AcqState) : AcqState :=
  if 4 ≤ s.pending.length then
    { s with pending := [], frames := s.frames ++ readFrames s.pending }
  else s

/-- One timer tick of `update_plot` at elapsed time `t` (taking
`start_time = 0`).  While `ignore_initial_data` is set: if the settle delay
has elapsed the flag is cleared and the same tick already processes data;
otherwise the waiting bytes are read away only when at least 4 are waiting
(`if self.ser.in_waiting >= 4: self.ser.read(self.ser.in_waiting)`).  After
the settle window every tick processes the waiting bytes. -/
def update_plot_tick (delay : ℚ) (s : AcqState) (t : ℚ) : AcqState :=
  if s.ignore then
    if delay ≤ t then processPending { s with ignore := false }
    else if 4 ≤ s.pending.length then { s with pending := [] }
    else s
  else processPending s

/-- An event of the acquisition loop: bytes arriving on the serial buffer at
a given time, or a GUI timer tick at a given time. -/
inductive AcqEvent
  | arrive (t : ℚ) (bytes : List ℕ)
  | tick (t : ℚ)

def acqStep (delay : ℚ) (s : AcqState) : AcqEvent → AcqState
  | .arrive t bs => { s with pending := s.pending ++ bs.map fun b => (t, b) }
  | .tick t => update_plot_tick delay s t

/-- Running the acquisition machine from the initial state
(`ignore_initial_data = True`, empty buffer). -/
def acqRun (delay : ℚ) (evs : List AcqEvent) : AcqState :=
  evs.foldl (acqStep delay) ⟨true, [], []⟩

/-- C4 counterexample: three bytes arrive at time 1 (strictly before the
3 s settle window ends) but are never drained, because the settle branch
only reads when at least 4 bytes are waiting; one more byte arrives at
time 3.5, and the tick at time 4 frames a sample containing the three
pre-settle bytes. -/
theorem settle_discard_counterexample :
    (acqRun initial_delay
        [.arrive 1 [1, 2, 3], .tick 1, .tick 3,
          .arrive (7 / 2) [4], .tick 4]).frames =
      [[(1, 1), (1, 2), (1, 3), (7 / 2, 4)]] ∧
      ((acqRun initial_delay
          [.arrive 1 [1, 2, 3], .tick 1, .tick 3,
            .arrive (7 / 2) [4], .tick 4]).frames.flatten.any
        fun p => decide (p.1 < initial_delay)) = true := by
  constructor
  · rfl
  · rfl

theorem processPending_ignore (s : AcqState) :
    (processPending s).ignore = s.ignore := by
  rw [processPending]
  split <;> rfl

/-- C4 amended: while the settle flag is set and the settle delay has not
elapsed, a tick frames nothing (zero samples) and drains the waiting bytes
exactly when at least 4 are waiting — up to 3 waiting bytes are retained in
the serial buffer rather than discarded; the flag is cleared at the first
tick whose elapsed time has reached the delay (and that same tick already
processes data). -/
theorem settle_discard_amended (delay t : ℚ) (s : AcqState)
    (hig : s.ignore = true) :
    (t < delay →
      (update_plot_tick delay s t).frames = s.frames ∧
        (update_plot_tick delay s t).ignore = true ∧
        (update_plot_tick delay s t).pending =
          (if 4 ≤ s.pending.length then [] else s.pending)) ∧
      (delay ≤ t → (update_plot_tick delay s t).ignore = false) := by
  constructor
  · intro hlt
    rw [update_plot_tick, if_pos hig, if_neg (by exact not_le.mpr hlt)]
    split
    · exact ⟨rfl, hig, rfl⟩
    · exact ⟨rfl, hig, rfl⟩
  · intro hle
    rw [update_plot_tick, if_pos hig, if_pos hle, processPending_ignore]

/-- Witness for C4 amended: a settling state with one waiting byte at tick
time 1 of a 3 s window. -/
theorem settle_discard_amended_witness :
    (AcqState.mk true [(0, 7)] []).ignore = true ∧
      (((1 : ℚ) < 3 →
        (update_plot_tick 3 (AcqState.mk true [(0, 7)] []) 1).frames =
            (AcqState.mk true [(0, 7)] []).frames ∧
          (update_plot_tick 3 (AcqState.mk true [(0, 7)] []) 1).ignore = true ∧
          (update_plot_tick 3 (AcqState.mk true [(0, 7)] []) 1).pending =
            (if 4 ≤ (AcqState.mk true [(0, 7)] []).pending.length then []
              else (AcqState.mk true [(0, 7)] []).pending)) ∧
        ((3 : ℚ) ≤ 1 →
          (update_plot_tick 3 (AcqState.mk true [(0, 7)] []) 1).ignore = false)) :=
  ⟨rfl, settle_discard_amended 3 1 (AcqState.mk true [(0, 7)] []) rfl⟩

/-- One CSV row: the header `["timestamp", "value"]` or a data record. -/
inductive CsvRow
  | header
  | record (t : ℚ) (v : ℤ)
deriving DecidableEq

/-- An open CSV file as the operating system sees it: creation time
(`self.file_start_time`), rows already persisted to disk, and rows still
sitting in the process's stdio buffer — `open(filename, 'w', newline='')`
uses default block buffering and `save_to_csv` never calls `flush`, so a
`writerow` only reaches the buffer. -/
structure SinkFile where
  createdAt : ℚ
  persisted : List CsvRow
  buffered : List CsvRow
deriving DecidableEq

/-- The sink-related state of `RealTimePlot`: whether `csv_writer` is set
(`writerEnabled`), the currently open file, `file_start_time`, the closed
files, the settle flag consulted by `check_file_rotation`, and a count of
the recovery attempts made from `save_to_csv`'s error handler. -/
structure SinkState where
  writerEnabled : Bool
  cur : Option SinkFile
  fileStart : Option ℚ
  closedFiles : List SinkFile
  ignore : Bool
  recoveries : ℕ
deriving DecidableEq

/-- `file.close()` flushes the stdio buffer to disk. -/
def closeFile (f : SinkFile) : SinkFile :=
  { f with persisted := f.persisted ++ f.buffered, buffered := [] }

/-- `init_csv_file` (lines 213–229): close the current file if any, then
open a fresh file and write the header row (into the new file's buffer);
`file_start_time` is set on success.  Every exception is caught inside the
method (`except ...: self.show_error(...)`), so `init_csv_file` never
raises.  `openFails` injects a failure of `open(...)`: the old file is then
already closed, and `csv_writer`, `file_start_time` are left as they were. -/
def init_csv_file (now : ℚ) (openFails : Bool) (s : SinkState) : SinkState :=
  let s' := { s with cur := none,
                     closedFiles := match s.cur with
                       | some f => s.closedFiles ++ [closeFile f]
                       | none => s.closedFiles }
  if openFails then s'
  else { s' with cur := some ⟨now, [], [CsvRow.header]⟩,
                 fileStart := some now, writerEnabled := true }

/-- `save_to_csv` (lines 266–277).  When `csv_writer` is `None` the method
does nothing.  A `writerow` fails when injected (`writeFails`) or when the
file object was closed by a failed re-open; the handler then shows the error
and calls `init_csv_file` to recover (counted in `recoveries`).  Because
`init_csv_file` catches its own exceptions and never raises, the
`except: self.csv_writer = None` branch that would disable the sink can
never run. -/
def save_to_csv (now : ℚ) (v : ℤ) (writeFails openFails : Bool)
    (s : SinkState) : SinkState :=
  if s.writerEnabled then
    match s.cur with
    | some f =>
      if writeFails then
        init_csv_file now openFails { s with recoveries := s.recoveries + 1 }
      else
        let f' : SinkFile :=
          { f with buffered := f.buffered ++ [CsvRow.record now v] }
        { s with cur := some f' }
    | none =>
      init_csv_file now openFails { s with recoveries := s.recoveries + 1 }
  else s

/-- The sink state right after `setup_file_system` succeeds at time `t`:
`csv_writer = None` and no file, then a successful `init_csv_file`. -/
def sinkStart (t : ℚ) : SinkState :=
  init_csv_file t false ⟨false, none, none, [], true, 0⟩

/-- C7: the disabled state is unreachable from a write failure.  Two
consecutive write failures whose forced re-creation of the CSV file also
fails leave `csv_writer` still set — the sink is never disabled, and every
further failing write attempts another recovery (the recovery count keeps
growing) instead of becoming a silent no-op. -/
theorem persist_disable_unreachable :
    (save_to_csv 2 7 true true
        (save_to_csv 1 5 true true (sinkStart 0))).writerEnabled = true ∧
      (save_to_csv 2 7 true true
        (save_to_csv 1 5 true true (sinkStart 0))).recoveries = 2 ∧
      (sinkStart 0).writerEnabled = true ∧ (sinkStart 0).recoveries = 0 := by
  decide

/-- `file_duration` of `setup_file_system`: 30 minutes, in seconds. -/
def file_duration : ℚ := 1800

/-- The rotation condition of `check_file_rotation` (lines 279–288): skipped
during the settle window, otherwise due when `file_start_time` is set and
the time since it has reached `file_duration`.  It inspects only the clock
and `file_start_time`, never the write volume. -/
def rotationDue (now : ℚ) (s : SinkState) : Bool :=
  !s.ignore &&
    match s.fileStart with
    | some t0 => decide (file_duration ≤ now - t0)
    | none => false

/-- `check_file_rotation`: rotate by calling `init_csv_file` when due. -/
def check_file_rotation (now : ℚ) (openFails : Bool) (s : SinkState) :
    SinkState :=
  if rotationDue now s then init_csv_file now openFails s else s

/-- C8 counterexample: a record write is not immediately persisted — after
`save_to_csv` the record sits in the stdio buffer of the open file while
nothing has reached the disk, so a crash before the next close loses it. -/
theorem rotation_flush_counterexample :
    (save_to_csv 1 42 false false (sinkStart 0)).cur =
      some ⟨0, [], [CsvRow.header, CsvRow.record 1 42]⟩ := by
  decide

/-- C8 amended: when the settle window is over and the time since
`file_start_time` has reached `file_duration`, the rotation check closes the
prior file — flushing every buffered row to disk, losing none — and creates
exactly one fresh file with the header (buffered) and creation time `now`;
before that boundary the check changes nothing; and the rotation decision
is time-based, unchanged by a successful record write.  Rows reach the disk
only when a file is closed, not at each write. -/
theorem rotation_boundary_amended (now : ℚ) (s : SinkState) (f : SinkFile)
    (hig : s.ignore = false) (hcur : s.cur = some f)
    (hstart : s.fileStart = some f.createdAt) :
    (file_duration ≤ now - f.createdAt →
      (check_file_rotation now false s).closedFiles =
          s.closedFiles ++ [closeFile f] ∧
        (closeFile f).persisted = f.persisted ++ f.buffered ∧
        (closeFile f).buffered = [] ∧
        (check_file_rotation now false s).cur =
          some ⟨now, [], [CsvRow.header]⟩ ∧
        (check_file_rotation now false s).fileStart = some now) ∧
      (now - f.createdAt < file_duration →
        check_file_rotation now false s = s) ∧
      (∀ t v, rotationDue now (save_to_csv t v false false s) =
        rotationDue now s) := by
  have hdue : ∀ b : Bool, rotationDue now s = b ↔
      (decide (file_duration ≤ now - f.createdAt)) = b := by
    intro b
    rw [rotationDue, hig, hstart]
    simp
  refine ⟨?_, ?_, ?_⟩
  · intro hle
    rw [check_file_rotation, if_pos ((hdue true).mpr (by simpa using hle))]
    simp [init_csv_file, hcur, closeFile]
  · intro hlt
    rw [check_file_rotation,
      if_neg (by rw [(hdue false).mpr (by simpa using not_le.mpr hlt)]; simp)]
  · intro t v
    by_cases hw : s.writerEnabled = true
    · rw [save_to_csv, if_pos hw, hcur]
      rw [rotationDue, rotationDue, hstart]
      simp
    · rw [save_to_csv, if_neg hw]

/-- Witness for C8 amended: a file opened at time 0 holding a buffered
record, checked at time 1800. -/
theorem rotation_boundary_amended_witness :
    (SinkState.mk true (some ⟨0, [], [CsvRow.header, CsvRow.record 1 42]⟩)
        (some 0) [] false 0).ignore = false ∧
      ((file_duration ≤ (1800 : ℚ) - 0 →
        (check_file_rotation 1800 false
            (SinkState.mk true
              (some ⟨0, [], [CsvRow.header, CsvRow.record 1 42]⟩)
              (some 0) [] false 0)).closedFiles =
            [] ++ [closeFile ⟨0, [], [CsvRow.header, CsvRow.record 1 42]⟩] ∧
          (closeFile ⟨0, [], [CsvRow.header, CsvRow.record 1 42]⟩).persisted =
            [] ++ [CsvRow.header, CsvRow.record 1 42] ∧
          (closeFile ⟨0, [], [CsvRow.header, CsvRow.record 1 42]⟩).buffered = [] ∧
          (check_file_rotation 1800 false
            (SinkState.mk true
              (some ⟨0, [], [CsvRow.header, CsvRow.record 1 42]⟩)
              (some 0) [] false 0)).cur = some ⟨1800, [], [CsvRow.header]⟩ ∧
          (check_file_rotation 1800 false
            (SinkState.mk true
              (some ⟨0, [], [CsvRow.header, CsvRow.record 1 42]⟩)
              (some 0) [] false 0)).fileStart = some 1800) ∧
        ((1800 : ℚ) - 0 < file_duration →
          check_file_rotation 1800 false
              (SinkState.mk true
                (some ⟨0, [], [CsvRow.header, CsvRow.record 1 42]⟩)
                (some 0) [] false 0) =
            SinkState.mk true
              (some ⟨0, [], [CsvRow.header, CsvRow.record 1 42]⟩)
              (some 0) [] false 0) ∧
        (∀ t v, rotationDue 1800 (save_to_csv t v false false
            (SinkState.mk true
              (some ⟨0, [], [CsvRow.header, CsvRow.record 1 42]⟩)
              (some 0) [] false 0)) =
          rotationDue 1800
            (SinkState.mk true
              (some ⟨0, [], [CsvRow.header, CsvRow.record 1 42]⟩)
              (some 0) [] false 0))) :=
  ⟨rfl, rotation_boundary_amended 1800
    (SinkState.mk true (some ⟨0, [], [CsvRow.header, CsvRow.record 1 42]⟩)
      (some 0) [] false 0)
    ⟨0, [], [CsvRow.header, CsvRow.record 1 42]⟩ rfl rfl rfl⟩

/-- The resources `RealTimePlot.closeEvent` must release, plus whether the
close event was accepted. -/
structure CloseState where
  plotTimerActive : Bool
  statsTimerActive : Bool
  fileTimerActive : Bool
  serOpen : Bool
  csvOpen : Bool
  accepted : Bool
deriving DecidableEq

/-- `closeEvent` (lines 327–340): one `try` block stops the three timers,
closes the serial port if it is open, then closes the CSV file; any
exception is caught and printed, and the `finally` accepts the event.
`serCloseFails` injects a failure of `self.ser.close()`: the exception jumps
to the handler, so the step after it — the CSV file close — is skipped and
the port may be left open. -/
def closeEvent (serCloseFails : Bool) (s : CloseState) : CloseState :=
  let s1 := { s with plotTimerActive := false, statsTimerActive := false,
                     fileTimerActive := false }
  if s.serOpen && serCloseFails then
    { s1 with accepted := true }
  else
    { s1 with serOpen := false, csvOpen := false, accepted := true }

/-- C9 counterexample: when the serial close raises, `closeEvent` catches
the exception and accepts the event with the CSV sink file still open — the
owned sink resource is not released on this error path. -/
theorem close_release_counterexample :
    (closeEvent true ⟨true, true, true, true, true, false⟩).csvOpen = true ∧
      (closeEvent true ⟨true, true, true, true, true, false⟩).accepted = true := by
  decide

/-- C9 amended: `closeEvent` always stops the three timers and accepts the
event; when no step raises it releases both the transport and the sink
file, but the releases run sequentially inside a single `try`, so a failing
serial close skips the sink file close and leaves the CSV file exactly as
it was. -/
theorem close_release_amended (s : CloseState) (serCloseFails : Bool) :
    (closeEvent serCloseFails s).plotTimerActive = false ∧
      (closeEvent serCloseFails s).statsTimerActive = false ∧
      (closeEvent serCloseFails s).fileTimerActive = false ∧
      (closeEvent serCloseFails s).accepted = true ∧
      (serCloseFails = false → (closeEvent serCloseFails s).serOpen = false ∧
        (closeEvent serCloseFails s).csvOpen = false) ∧
      (s.serOpen = true → serCloseFails = true →
        (closeEvent serCloseFails s).csvOpen = s.csvOpen) := by
  cases s with
  | mk p st ft so co ac => cases serCloseFails <;> cases so <;> simp [closeEvent]
